import Mathlib

/-!
# Offline map-tile cache: a shallow embedding

This file embeds the offline tile-cache module of the repository (the
`TileCacheDB` class and the exported functions `cacheTile`, `getCachedTile`,
`getCacheSize`, `clearCache`, `getTileUrls`, `downloadAreaTiles`) and proves
properties of the embedding.

Modelling conventions:
* A JS `Blob` is opaque to this module: the source never inspects its bytes,
  it only reads `blob.size` and stores the object.  A blob is therefore
  modelled by its observable byte length, and equality of `Blob` values
  models byte-for-byte identity of payloads.
* The IndexedDB object store `tiles` (keyPath `url`, so at most one record
  per url) is modelled as a list of records; `Store.WFKeys` states the
  keyPath uniqueness that IndexedDB enforces.
* The `timestamp` index cursor iterates records ascending by timestamp
  (ties broken by a fixed order that nothing here relies on); it is modelled
  by a stable sort on the timestamp.
* `fetch` together with `response.ok` and `response.blob()` is modelled by
  `net : String → Option Blob`: `none` covers a network error, a non-ok
  response, and a body-read failure — in all three cases the source caches
  nothing for the url.
* IEEE-double arithmetic of the source is modelled by exact arithmetic on
  `ℚ`/`ℤ`; `Date.now()` by an explicit `now : ℕ` argument.
-/

/-- A binary payload.  The source treats a `Blob` as opaque data with an
observable byte length `blob.size`. -/
structure Blob where
  size : Nat
deriving DecidableEq, Repr

/-- One record of the `tiles` object store: `{url, blob, timestamp, size}`. -/
structure TileData where
  url : String
  blob : Blob
  timestamp : Nat
  size : Nat
deriving DecidableEq, Repr

/-- The `tiles` object store. -/
abbrev Store := List TileData

/-- `const MAX_CACHE_SIZE = 100 * 1024 * 1024`. -/
def MAX_CACHE_SIZE : Nat := 100 * 1024 * 1024

/-- The eviction target `MAX_CACHE_SIZE * 0.8`.  The double product
`104857600 * 0.8` rounds to exactly `83886080`, so the target is an
integer; `pruneTarget_mul_five` ties it to the 80% ratio. -/
def pruneTarget : Nat := 83886080

theorem pruneTarget_mul_five : pruneTarget * 5 = MAX_CACHE_SIZE * 4 := rfl

/-- `TileCacheDB.get`: point lookup by primary key, `result?.blob || null`. -/
def TileCacheDB.get (s : Store) (url : String) : Option Blob :=
  (s.find? (fun t => t.url == url)).map (·.blob)

/-- `TileCacheDB.put`: upsert by the keyPath `url`, storing
`{url, blob, timestamp: Date.now(), size: blob.size}`.  The overwritten
record (if any) disappears; the list position of the record is irrelevant
to every observation made of a store. -/
def TileCacheDB.put (s : Store) (url : String) (blob : Blob) (now : Nat) : Store :=
  s.filter (fun t => t.url != url) ++ [⟨url, blob, now, blob.size⟩]

/-- `TileCacheDB.getCacheSize`: `getAll()` and then
`tiles.reduce((sum, tile) => sum + tile.size, 0)`. -/
def TileCacheDB.getCacheSize (s : Store) : Nat :=
  s.foldl (fun sum tile => sum + tile.size) 0

/-- `TileCacheDB.clear`: `store.clear()`. -/
def TileCacheDB.clear : Store := []

/-- The order in which the `timestamp` index cursor visits records:
ascending timestamps. -/
def tsLE (a b : TileData) : Prop := a.timestamp ≤ b.timestamp

instance : DecidableRel tsLE := fun a b => Nat.decLe a.timestamp b.timestamp

instance : IsTotal TileData tsLE := ⟨fun a b => Nat.le_total a.timestamp b.timestamp⟩

instance : IsTrans TileData tsLE := ⟨fun _ _ _ => Nat.le_trans⟩

/-- The sequence the `timestamp` index cursor yields: the records sorted
ascending by timestamp (a stable sort; the cursor's tie order among equal
timestamps is fixed but nothing in the module depends on it). -/
def entriesByTimestamp (s : Store) : List TileData := List.insertionSort tsLE s

/-- The cursor loop of `pruneOldTiles`: while a record remains and
`deletedSize < sizeToDelete`, delete the record under the cursor
(`cursor.delete()` removes the one record with that primary key),
accumulate its size and continue; otherwise resolve. -/
def pruneLoop : List TileData → Nat → Nat → Store → Store
  | [], _, _, s => s
  | t :: rest, deletedSize, sizeToDelete, s =>
    if deletedSize < sizeToDelete then
      pruneLoop rest (deletedSize + t.size) sizeToDelete
        (s.filter (fun e => e.url != t.url))
    else s

/-- `TileCacheDB.pruneOldTiles(targetSize)`: return unchanged when
`currentSize <= targetSize`, else walk the timestamp cursor deleting
until `sizeToDelete = currentSize - targetSize` bytes are freed or the
store is exhausted. -/
def TileCacheDB.pruneOldTiles (s : Store) (targetSize : Nat) : Store :=
  let currentSize := TileCacheDB.getCacheSize s
  if currentSize ≤ targetSize then s
  else pruneLoop (entriesByTimestamp s) 0 (currentSize - targetSize) s

/-- `cacheTile(url)` (the get-or-fetch entry point), instrumented: the
returned `Bool` records whether `fetch` was invoked.  On a hit the source
returns at once; on a miss it fetches, and when the fetch yields a payload
it prunes first iff `currentSize + blob.size > MAX_CACHE_SIZE`, then puts. -/
def cacheTile (net : String → Option Blob) (now : Nat) (s : Store) (url : String) :
    Store × Bool :=
  match TileCacheDB.get s url with
  | some _ => (s, false)
  | none =>
    match net url with
    | none => (s, true)
    | some blob =>
      let currentSize := TileCacheDB.getCacheSize s
      let s1 := if MAX_CACHE_SIZE < currentSize + blob.size
        then TileCacheDB.pruneOldTiles s pruneTarget
        else s
      (TileCacheDB.put s1 url blob now, true)

/-- The keyPath invariant IndexedDB enforces on the `tiles` store: at most
one record per url. -/
def Store.WFKeys (s : Store) : Prop := (s.map (·.url)).Nodup

instance (s : Store) : Decidable (Store.WFKeys s) := by
  unfold Store.WFKeys; infer_instance

/-! ## Size accounting -/

theorem foldl_size_shift (l : List TileData) :
    ∀ n : Nat, l.foldl (fun sum tile => sum + tile.size) n
      = n + l.foldl (fun sum tile => sum + tile.size) 0 := by
  induction l with
  | nil => intro n; simp
  | cons t rest ih =>
    intro n
    simp only [List.foldl_cons]
    rw [ih (n + t.size), ih (0 + t.size)]
    omega

theorem getCacheSize_nil : TileCacheDB.getCacheSize [] = 0 := rfl

theorem getCacheSize_cons (t : TileData) (s : Store) :
    TileCacheDB.getCacheSize (t :: s) = t.size + TileCacheDB.getCacheSize s := by
  unfold TileCacheDB.getCacheSize
  simp only [List.foldl_cons]
  rw [foldl_size_shift]
  omega

theorem getCacheSize_eq_sum (s : Store) :
    TileCacheDB.getCacheSize s = (s.map (·.size)).sum := by
  induction s with
  | nil => rfl
  | cons t rest ih => rw [getCacheSize_cons, ih]; simp

theorem getCacheSize_perm {s s' : Store} (h : s.Perm s') :
    TileCacheDB.getCacheSize s = TileCacheDB.getCacheSize s' := by
  rw [getCacheSize_eq_sum, getCacheSize_eq_sum]
  exact (h.map (·.size)).sum_eq

theorem getCacheSize_append (s s' : Store) :
    TileCacheDB.getCacheSize (s ++ s')
      = TileCacheDB.getCacheSize s + TileCacheDB.getCacheSize s' := by
  rw [getCacheSize_eq_sum, getCacheSize_eq_sum, getCacheSize_eq_sum]
  simp

/-! ## Deleting one record by primary key -/

theorem filter_ne_of_not_mem {s : Store} {u : String}
    (h : ∀ e ∈ s, e.url ≠ u) : s.filter (fun e => e.url != u) = s :=
  List.filter_eq_self.mpr (fun e he => by
    simpa using h e he)

/-- With unique keys, deleting by the key of a member removes exactly that
record. -/
theorem filter_eq_erase {s : Store} {t : TileData}
    (hwf : Store.WFKeys s) (ht : t ∈ s) :
    s.filter (fun e => e.url != t.url) = s.erase t := by
  induction s with
  | nil => cases ht
  | cons a rest ih =>
    have hhead : a.url ∉ rest.map (·.url) := (List.nodup_cons.mp hwf).1
    have hwf' : Store.WFKeys rest := (List.nodup_cons.mp hwf).2
    by_cases hat : a = t
    · subst hat
      have hnot : ∀ e ∈ rest, e.url ≠ a.url := by
        intro e he heq
        exact hhead (List.mem_map.mpr ⟨e, he, heq⟩)
      rw [List.erase_cons_head]
      rw [List.filter_cons_of_neg (by simp)]
      exact filter_ne_of_not_mem hnot
    · have htr : t ∈ rest := by
        rcases List.mem_cons.mp ht with h | h
        · exact absurd h.symm hat
        · exact h
      have hau : a.url ≠ t.url := by
        intro heq
        exact hhead (List.mem_map.mpr ⟨t, htr, heq.symm⟩)
      rw [List.erase_cons_tail (by simpa using hat)]
      rw [List.filter_cons_of_pos (by simpa using hau)]
      rw [ih hwf' htr]

theorem WFKeys_erase {s : Store} (t : TileData) (hwf : Store.WFKeys s) :
    Store.WFKeys (s.erase t) := by
  have hsub : List.Sublist ((s.erase t).map (·.url)) (s.map (·.url)) :=
    (s.erase_sublist t).map (·.url)
  exact hsub.nodup hwf

/-! ## The prune loop frees exactly enough bytes -/

theorem pruneLoop_size_le (target : Nat) :
    ∀ (rem : List TileData) (s' : Store) (deleted total : Nat),
      Store.WFKeys s' → rem.Perm s' →
      TileCacheDB.getCacheSize s' + deleted = total →
      TileCacheDB.getCacheSize (pruneLoop rem deleted (total - target) s') ≤ target := by
  intro rem
  induction rem with
  | nil =>
    intro s' deleted total _ hperm hsum
    have : s' = [] := (hperm.symm).eq_nil
    subst this
    simp [pruneLoop, getCacheSize_nil]

  | cons t rest ih =>
    intro s' deleted total hwf hperm hsum
    have hts : t ∈ s' := hperm.mem_iff.mp (List.mem_cons_self t rest)
    by_cases hlt : deleted < total - target
    · rw [pruneLoop, if_pos hlt]
      rw [filter_eq_erase hwf hts]
      have hperm' : rest.Perm (s'.erase t) := by
        have h1 : s'.Perm (t :: s'.erase t) := List.perm_cons_erase hts
        exact (hperm.trans h1).cons_inv
      have hsize : TileCacheDB.getCacheSize s'
          = t.size + TileCacheDB.getCacheSize (s'.erase t) := by
        have := getCacheSize_perm (List.perm_cons_erase hts)
        rw [this, getCacheSize_cons]
      exact ih (s'.erase t) (deleted + t.size) total (WFKeys_erase t hwf) hperm'
        (by omega)
    · rw [pruneLoop, if_neg hlt]
      omega

/-- After `pruneOldTiles`, the total size is at or below the target (the
loop frees bytes until `deletedSize ≥ sizeToDelete`, and an exhausted
cursor means the store is empty). -/
theorem pruneOldTiles_size_le (s : Store) (target : Nat) (hwf : Store.WFKeys s) :
    TileCacheDB.getCacheSize (TileCacheDB.pruneOldTiles s target) ≤ target := by
  unfold TileCacheDB.pruneOldTiles
  by_cases h : TileCacheDB.getCacheSize s ≤ target
  · simp [h]
  · simp only [h, if_neg, if_false]
    exact pruneLoop_size_le target (entriesByTimestamp s) s 0
      (TileCacheDB.getCacheSize s) hwf (List.perm_insertionSort tsLE s) (by omega)

/-! ## Which records the prune loop deletes -/

/-- The records the cursor loop deletes, in cursor order: the minimal
prefix of the remaining cursor sequence whose accumulated size reaches
`sizeToDelete` (all of it when the cursor is exhausted first). -/
def toDelete : List TileData → Nat → Nat → List TileData
  | [], _, _ => []
  | t :: rest, deletedSize, sizeToDelete =>
    if deletedSize < sizeToDelete then
      t :: toDelete rest (deletedSize + t.size) sizeToDelete
    else []

/-- Delete the listed records from the store, one primary key at a time. -/
def removeUrls : Store → List TileData → Store
  | s, [] => s
  | s, d :: ds => removeUrls (s.filter (fun e => e.url != d.url)) ds

theorem pruneLoop_eq_removeUrls :
    ∀ (rem : List TileData) (deleted need : Nat) (s : Store),
      pruneLoop rem deleted need s = removeUrls s (toDelete rem deleted need) := by
  intro rem
  induction rem with
  | nil => intro deleted need s; rfl
  | cons t rest ih =>
    intro deleted need s
    by_cases hlt : deleted < need
    · rw [pruneLoop, if_pos hlt, toDelete, if_pos hlt]
      exact ih (deleted + t.size) need _
    · rw [pruneLoop, if_neg hlt, toDelete, if_neg hlt]
      rfl

theorem mem_removeUrls (e : TileData) :
    ∀ (ds : List TileData) (s : Store),
      e ∈ removeUrls s ds ↔ e ∈ s ∧ ∀ d ∈ ds, d.url ≠ e.url := by
  intro ds
  induction ds with
  | nil => intro s; simp [removeUrls]
  | cons d ds ih =>
    intro s
    rw [removeUrls, ih]
    simp only [List.mem_filter, List.forall_mem_cons, bne_iff_ne, ne_eq]
    constructor
    · rintro ⟨⟨hes, hne⟩, hall⟩
      exact ⟨hes, fun h => hne h.symm, hall⟩
    · rintro ⟨hes, hne, hall⟩
      exact ⟨⟨hes, fun h => hne h.symm⟩, hall⟩

theorem toDelete_isPrefix :
    ∀ (l : List TileData) (deleted need : Nat),
      ∃ l2, toDelete l deleted need ++ l2 = l := by
  intro l
  induction l with
  | nil => intro deleted need; exact ⟨[], rfl⟩
  | cons t rest ih =>
    intro deleted need
    by_cases hlt : deleted < need
    · obtain ⟨l2, hl2⟩ := ih (deleted + t.size) need
      exact ⟨l2, by rw [toDelete, if_pos hlt, List.cons_append, hl2]⟩
    · exact ⟨t :: rest, by rw [toDelete, if_neg hlt]; rfl⟩

theorem toDelete_take_lt :
    ∀ (l : List TileData) (deleted need k : Nat),
      k < (toDelete l deleted need).length →
      deleted + (((toDelete l deleted need).take k).map (·.size)).sum < need := by
  intro l
  induction l with
  | nil => intro deleted need k h; simp [toDelete] at h
  | cons t rest ih =>
    intro deleted need k h
    by_cases hlt : deleted < need
    · rw [toDelete, if_pos hlt] at h ⊢
      cases k with
      | zero => simpa
      | succ k =>
        rw [List.take_succ_cons, List.map_cons, List.sum_cons]
        have := ih (deleted + t.size) need k (by simpa using h)
        omega
    · rw [toDelete, if_neg hlt] at h
      simp at h

theorem toDelete_stop :
    ∀ (l : List TileData) (deleted need : Nat),
      need ≤ deleted + ((toDelete l deleted need).map (·.size)).sum
        ∨ toDelete l deleted need = l := by
  intro l
  induction l with
  | nil => intro deleted need; right; rfl
  | cons t rest ih =>
    intro deleted need
    by_cases hlt : deleted < need
    · rw [toDelete, if_pos hlt]
      rcases ih (deleted + t.size) need with h | h
      · left; simp only [List.map_cons, List.sum_cons]; omega
      · right; rw [h]
    · left; omega

/-! ## Point lookups after updates -/

theorem get_put (s : Store) (url : String) (blob : Blob) (now : Nat) :
    TileCacheDB.get (TileCacheDB.put s url blob now) url = some blob := by
  unfold TileCacheDB.get TileCacheDB.put
  rw [List.find?_append]
  have hleft : (s.filter (fun t => t.url != url)).find? (fun t => t.url == url) = none := by
    rw [List.find?_eq_none]
    intro e he
    have := (List.mem_filter.mp he).2
    simpa using (by simpa using this : e.url ≠ url)
  rw [hleft]
  simp

theorem mem_pruneOldTiles {s : Store} {target : Nat} {e : TileData}
    (h : e ∈ TileCacheDB.pruneOldTiles s target) : e ∈ s := by
  unfold TileCacheDB.pruneOldTiles at h
  by_cases hle : TileCacheDB.getCacheSize s ≤ target
  · simpa [hle] using h
  · rw [if_neg hle, pruneLoop_eq_removeUrls] at h
    have := (mem_removeUrls e _ s).mp h
    exact this.1

/-! ## Evaluation rules for cacheTile -/

theorem cacheTile_hit {s : Store} {url : String} {b : Blob}
    (net : String → Option Blob) (now : Nat)
    (h : TileCacheDB.get s url = some b) :
    cacheTile net now s url = (s, false) := by
  unfold cacheTile
  rw [h]

theorem cacheTile_fetchFail {net : String → Option Blob} {s : Store} {url : String}
    (now : Nat)
    (hmiss : TileCacheDB.get s url = none) (hnet : net url = none) :
    cacheTile net now s url = (s, true) := by
  unfold cacheTile
  rw [hmiss, hnet]

theorem cacheTile_miss {net : String → Option Blob} {s : Store} {url : String}
    {blob : Blob} (now : Nat)
    (hmiss : TileCacheDB.get s url = none) (hnet : net url = some blob) :
    cacheTile net now s url
      = (TileCacheDB.put
          (if MAX_CACHE_SIZE < TileCacheDB.getCacheSize s + blob.size
            then TileCacheDB.pruneOldTiles s pruneTarget else s)
          url blob now, true) := by
  unfold cacheTile
  rw [hmiss, hnet]

/-! ## C1: quota enforcement in cacheTile -/

/-- C1: for a non-cached url whose fetch succeeds with a payload of size
`s`, `cacheTile` prunes to the 80% target (so immediately before the `put`
the total size is at most `0.8 × quota`) exactly when
`totalSize + s > MAX_CACHE_SIZE`, and otherwise stores the payload directly
with no pruning. -/
theorem cacheTile_quota_enforcement (net : String → Option Blob) (now : Nat)
    (s : Store) (url : String) (blob : Blob)
    (hwf : Store.WFKeys s)
    (hmiss : TileCacheDB.get s url = none) (hnet : net url = some blob) :
    (MAX_CACHE_SIZE < TileCacheDB.getCacheSize s + blob.size →
      cacheTile net now s url
        = (TileCacheDB.put (TileCacheDB.pruneOldTiles s pruneTarget) url blob now, true)
      ∧ TileCacheDB.getCacheSize (TileCacheDB.pruneOldTiles s pruneTarget) ≤ pruneTarget)
    ∧ (TileCacheDB.getCacheSize s + blob.size ≤ MAX_CACHE_SIZE →
      cacheTile net now s url = (TileCacheDB.put s url blob now, true)) := by
  constructor
  · intro hover
    rw [cacheTile_miss now hmiss hnet, if_pos hover]
    exact ⟨rfl, pruneOldTiles_size_le s pruneTarget hwf⟩
  · intro hunder
    rw [cacheTile_miss now hmiss hnet, if_neg (by omega)]

theorem cacheTile_quota_enforcement_witness :
    (MAX_CACHE_SIZE < TileCacheDB.getCacheSize [] + (Blob.mk 5).size →
      cacheTile (fun _ => some (Blob.mk 5)) 1 [] "u"
        = (TileCacheDB.put (TileCacheDB.pruneOldTiles [] pruneTarget) "u" (Blob.mk 5) 1, true)
      ∧ TileCacheDB.getCacheSize (TileCacheDB.pruneOldTiles [] pruneTarget) ≤ pruneTarget)
    ∧ (TileCacheDB.getCacheSize [] + (Blob.mk 5).size ≤ MAX_CACHE_SIZE →
      cacheTile (fun _ => some (Blob.mk 5)) 1 [] "u"
        = (TileCacheDB.put [] "u" (Blob.mk 5) 1, true)) :=
  cacheTile_quota_enforcement (fun _ => some (Blob.mk 5)) 1 [] "u" (Blob.mk 5)
    (by decide) rfl rfl

/-! ## C2: size accounting across operation sequences -/

theorem mem_put {s : Store} {url : String} {blob : Blob} {now : Nat} {e : TileData} :
    e ∈ TileCacheDB.put s url blob now
      ↔ (e ∈ s ∧ e.url ≠ url) ∨ e = ⟨url, blob, now, blob.size⟩ := by
  unfold TileCacheDB.put
  simp [List.mem_filter]

theorem mem_cacheTile {net : String → Option Blob} {now : Nat} {s : Store}
    {url : String} {e : TileData} (h : e ∈ (cacheTile net now s url).1) :
    e ∈ s ∨ ∃ blob, net url = some blob ∧ e = ⟨url, blob, now, blob.size⟩ := by
  rcases hg : TileCacheDB.get s url with _ | b
  · rcases hn : net url with _ | blob
    · rw [cacheTile_fetchFail now hg hn] at h
      exact Or.inl h
    · rw [cacheTile_miss now hg hn] at h
      rcases mem_put.mp h with ⟨hmem, _⟩ | hnew
      · by_cases hcond : MAX_CACHE_SIZE
            < TileCacheDB.getCacheSize s + blob.size
        · rw [if_pos hcond] at hmem
          exact Or.inl (mem_pruneOldTiles hmem)
        · rw [if_neg hcond] at hmem
          exact Or.inl hmem
      · exact Or.inr ⟨blob, hn ▸ rfl, hnew⟩
  · rw [cacheTile_hit net now hg] at h
    exact Or.inl h

/-- One mutating operation of the module, as invoked by callers: a raw
`put`, a `pruneOldTiles`, a `clear`, or a full `cacheTile`. -/
inductive CacheOp where
  | opPut (url : String) (blob : Blob) (now : Nat)
  | opPrune (target : Nat)
  | opClear
  | opCacheTile (net : String → Option Blob) (now : Nat) (url : String)

def applyOp (s : Store) : CacheOp → Store
  | .opPut url blob now => TileCacheDB.put s url blob now
  | .opPrune target => TileCacheDB.pruneOldTiles s target
  | .opClear => TileCacheDB.clear
  | .opCacheTile net now url => (cacheTile net now s url).1

def applyOps (s : Store) (ops : List CacheOp) : Store := ops.foldl applyOp s

theorem sizeConsistent_applyOp {s : Store}
    (hsc : ∀ e ∈ s, e.size = e.blob.size) (op : CacheOp) :
    ∀ e ∈ applyOp s op, e.size = e.blob.size := by
  cases op with
  | opPut url blob now =>
    intro e he
    rcases mem_put.mp he with ⟨hmem, _⟩ | hnew
    · exact hsc e hmem
    · rw [hnew]
  | opPrune target =>
    intro e he
    exact hsc e (mem_pruneOldTiles he)
  | opClear =>
    intro e he
    cases he
  | opCacheTile net now url =>
    intro e he
    rcases mem_cacheTile he with hmem | ⟨blob, _, hnew⟩
    · exact hsc e hmem
    · rw [hnew]

/-- C2: after every sequence of put, prune, clear and cacheTile operations
on a store whose records are size-consistent, the reported aggregate
`getCacheSize` equals the sum of the per-record `size` fields, each live
record's `size` field equals the byte length of its stored blob, and hence
the aggregate equals the sum of the stored blobs' byte lengths. -/
theorem cache_size_accounting (s : Store) (ops : List CacheOp)
    (hsc : ∀ e ∈ s, e.size = e.blob.size) :
    (∀ e ∈ applyOps s ops, e.size = e.blob.size)
    ∧ TileCacheDB.getCacheSize (applyOps s ops)
        = ((applyOps s ops).map (·.size)).sum
    ∧ TileCacheDB.getCacheSize (applyOps s ops)
        = ((applyOps s ops).map (·.blob.size)).sum := by
  have hall : ∀ e ∈ applyOps s ops, e.size = e.blob.size := by
    induction ops generalizing s with
    | nil => exact hsc
    | cons op ops ih =>
      exact ih (applyOp s op) (sizeConsistent_applyOp hsc op)
  refine ⟨hall, getCacheSize_eq_sum _, ?_⟩
  rw [getCacheSize_eq_sum]
  exact congrArg List.sum (List.map_congr_left hall)

theorem cache_size_accounting_witness :
    (∀ e ∈ applyOps [] [CacheOp.opPut "a" (Blob.mk 3) 1,
        CacheOp.opPut "b" (Blob.mk 4) 2, CacheOp.opPrune 4, CacheOp.opClear],
      e.size = e.blob.size)
    ∧ TileCacheDB.getCacheSize (applyOps [] [CacheOp.opPut "a" (Blob.mk 3) 1,
        CacheOp.opPut "b" (Blob.mk 4) 2, CacheOp.opPrune 4, CacheOp.opClear])
      = ((applyOps [] [CacheOp.opPut "a" (Blob.mk 3) 1,
          CacheOp.opPut "b" (Blob.mk 4) 2, CacheOp.opPrune 4, CacheOp.opClear]).map
          (·.size)).sum
    ∧ TileCacheDB.getCacheSize (applyOps [] [CacheOp.opPut "a" (Blob.mk 3) 1,
        CacheOp.opPut "b" (Blob.mk 4) 2, CacheOp.opPrune 4, CacheOp.opClear])
      = ((applyOps [] [CacheOp.opPut "a" (Blob.mk 3) 1,
          CacheOp.opPut "b" (Blob.mk 4) 2, CacheOp.opPrune 4, CacheOp.opClear]).map
          (·.blob.size)).sum :=
  cache_size_accounting [] _ (by simp)

/-- Key uniqueness: two records of a well-keyed store with the same url
are the same record. -/
theorem eq_of_mem_same_url {s : Store} (hwf : Store.WFKeys s) {d e : TileData}
    (hd : d ∈ s) (he : e ∈ s) (hurl : d.url = e.url) : d = e := by
  induction s with
  | nil => cases hd
  | cons a rest ih =>
    have hhead : a.url ∉ rest.map (·.url) := (List.nodup_cons.mp hwf).1
    have hwf2 : Store.WFKeys rest := (List.nodup_cons.mp hwf).2
    rcases List.mem_cons.mp hd with hda | hdr
    · rcases List.mem_cons.mp he with hea | her
      · rw [hda, hea]
      · exact absurd (List.mem_map.mpr ⟨e, her, by rw [← hurl, hda]⟩) hhead
    · rcases List.mem_cons.mp he with hea | her
      · exact absurd (List.mem_map.mpr ⟨d, hdr, by rw [hurl, hea]⟩) hhead
      · exact ih hwf2 hdr her

/-! ## C3: oldest-first eviction -/

/-- The records `pruneOldTiles s target` deletes (when the store is over
target): the minimal prefix of the timestamp-ascending cursor sequence
whose sizes sum to at least `currentSize - target`. -/
def prunedRecords (s : Store) (target : Nat) : List TileData :=
  toDelete (entriesByTimestamp s) 0 (TileCacheDB.getCacheSize s - target)

theorem filter_three {A B C : TileData} {u : String}
    (hA : A.url = u) (hB : B.url ≠ u) (hC : C.url ≠ u) :
    [A, B, C].filter (fun e => e.url != u) = [B, C] := by
  simp only [List.filter_cons, List.filter_nil]
  rw [if_neg (by simp [hA]), if_pos (by simpa using hB), if_pos (by simpa using hC)]

theorem filter_two {B C : TileData} {u : String}
    (hB : B.url = u) (hC : C.url ≠ u) :
    [B, C].filter (fun e => e.url != u) = [C] := by
  simp only [List.filter_cons, List.filter_nil]
  rw [if_neg (by simp [hB]), if_pos (by simpa using hC)]

/-- The spec's three-record scenario: among `A@t1, B@t2, C@t3` with
ascending timestamps, a prune that must free exactly
`size(A) + size(B)` deletes A and B and preserves C. -/
theorem pruneOldTiles_three (A B C : TileData)
    (hts1 : A.timestamp ≤ B.timestamp) (hts2 : B.timestamp ≤ C.timestamp)
    (hAB : A.url ≠ B.url) (hAC : A.url ≠ C.url) (hBC : B.url ≠ C.url)
    (hA : 0 < A.size) (hB : 0 < B.size) :
    TileCacheDB.pruneOldTiles [A, B, C] C.size = [C] := by
  have hcs : TileCacheDB.getCacheSize [A, B, C] = A.size + B.size + C.size := by
    rw [getCacheSize_cons, getCacheSize_cons, getCacheSize_cons, getCacheSize_nil]
    omega
  have hsorted : List.Sorted tsLE [A, B, C] := by
    refine List.Pairwise.cons (fun b hb => ?_)
      (List.Pairwise.cons (fun c hc => ?_) (by simp))
    · rcases List.mem_cons.mp hb with h | h
      · subst h; exact hts1
      · rw [List.mem_singleton] at h
        subst h
        exact Nat.le_trans hts1 hts2
    · rw [List.mem_singleton] at hc
      subst hc
      exact hts2
  have hents : entriesByTimestamp [A, B, C] = [A, B, C] :=
    List.Sorted.insertionSort_eq hsorted
  unfold TileCacheDB.pruneOldTiles
  rw [hcs, if_neg (by omega), hents]
  have hneed : A.size + B.size + C.size - C.size = A.size + B.size := by omega
  rw [hneed]
  rw [pruneLoop, if_pos (by omega), filter_three rfl hAB.symm hAC.symm]
  rw [pruneLoop, if_pos (by omega), filter_two rfl hBC.symm]
  rw [pruneLoop, if_neg (by omega)]

/-- C3: when the store is above target, `pruneOldTiles` walks the
timestamp-ascending cursor sequence deleting one record at a time and
stops as soon as the freed bytes reach `currentSize - target`
(equivalently, as soon as the remaining size is at or below target): the
deleted records are a prefix of that sequence, every proper prefix of the
deleted records frees strictly too little, the loop stops with enough
freed or with the store exhausted, every record strictly newer than all
deleted records is preserved, and in the concrete `A@t1, B@t2, C@t3`
scenario a prune that must free exactly `size(A) + size(B)` deletes A and
B and preserves C. -/
theorem pruneOldTiles_evicts_oldest_first (s : Store) (target : Nat)
    (hwf : Store.WFKeys s)
    (hgt : target < TileCacheDB.getCacheSize s) :
    List.Sorted tsLE (entriesByTimestamp s)
    ∧ (entriesByTimestamp s).Perm s
    ∧ (∃ l2, prunedRecords s target ++ l2 = entriesByTimestamp s)
    ∧ TileCacheDB.pruneOldTiles s target = removeUrls s (prunedRecords s target)
    ∧ (∀ k < (prunedRecords s target).length,
        (((prunedRecords s target).take k).map (·.size)).sum
          < TileCacheDB.getCacheSize s - target)
    ∧ (TileCacheDB.getCacheSize s - target
          ≤ ((prunedRecords s target).map (·.size)).sum
        ∨ prunedRecords s target = entriesByTimestamp s)
    ∧ (∀ e ∈ s, (∀ d ∈ prunedRecords s target, d.timestamp < e.timestamp) →
        e ∈ TileCacheDB.pruneOldTiles s target)
    ∧ (∀ A B C : TileData,
        A.timestamp ≤ B.timestamp → B.timestamp ≤ C.timestamp →
        A.url ≠ B.url → A.url ≠ C.url → B.url ≠ C.url →
        0 < A.size → 0 < B.size →
        TileCacheDB.pruneOldTiles [A, B, C] C.size = [C]) := by
  have hres : TileCacheDB.pruneOldTiles s target
      = removeUrls s (prunedRecords s target) := by
    unfold TileCacheDB.pruneOldTiles prunedRecords
    rw [if_neg (by omega)]
    exact pruneLoop_eq_removeUrls _ _ _ _
  refine ⟨List.sorted_insertionSort tsLE s, List.perm_insertionSort tsLE s,
    toDelete_isPrefix _ _ _, hres, ?_, ?_, ?_, ?_⟩
  · intro k hk
    simp only [prunedRecords] at hk ⊢
    have := toDelete_take_lt (entriesByTimestamp s) 0
      (TileCacheDB.getCacheSize s - target) k hk
    omega
  · simp only [prunedRecords]
    rcases toDelete_stop (entriesByTimestamp s) 0
        (TileCacheDB.getCacheSize s - target) with h | h
    · left; omega
    · right; exact h
  · intro e he hnewer
    rw [hres, mem_removeUrls]
    refine ⟨he, fun d hd hdu => ?_⟩
    -- a deleted record shares e's key, so by key uniqueness it IS e,
    -- contradicting that it is strictly older
    have hdmem : d ∈ s := by
      simp only [prunedRecords] at hd
      obtain ⟨l2, hl2⟩ := toDelete_isPrefix (entriesByTimestamp s) 0
        (TileCacheDB.getCacheSize s - target)
      have : d ∈ entriesByTimestamp s := by
        rw [← hl2]
        exact List.mem_append_left _ hd
      exact (List.perm_insertionSort tsLE s).mem_iff.mp this
    have hde : d = e := eq_of_mem_same_url hwf hdmem he hdu
    have := hnewer d hd
    rw [hde] at this
    omega
  · intro A B C h1 h2 h3 h4 h5 h6 h7
    exact pruneOldTiles_three A B C h1 h2 h3 h4 h5 h6 h7

theorem pruneOldTiles_evicts_oldest_first_witness :
    List.Sorted tsLE (entriesByTimestamp [⟨"a", ⟨2⟩, 1, 2⟩])
    ∧ (entriesByTimestamp [⟨"a", ⟨2⟩, 1, 2⟩]).Perm [⟨"a", ⟨2⟩, 1, 2⟩]
    ∧ (∃ l2, prunedRecords [⟨"a", ⟨2⟩, 1, 2⟩] 0 ++ l2
        = entriesByTimestamp [⟨"a", ⟨2⟩, 1, 2⟩])
    ∧ TileCacheDB.pruneOldTiles [⟨"a", ⟨2⟩, 1, 2⟩] 0
        = removeUrls [⟨"a", ⟨2⟩, 1, 2⟩] (prunedRecords [⟨"a", ⟨2⟩, 1, 2⟩] 0)
    ∧ (∀ k < (prunedRecords [⟨"a", ⟨2⟩, 1, 2⟩] 0).length,
        (((prunedRecords [⟨"a", ⟨2⟩, 1, 2⟩] 0).take k).map (·.size)).sum
          < TileCacheDB.getCacheSize [⟨"a", ⟨2⟩, 1, 2⟩] - 0)
    ∧ (TileCacheDB.getCacheSize [⟨"a", ⟨2⟩, 1, 2⟩] - 0
          ≤ ((prunedRecords [⟨"a", ⟨2⟩, 1, 2⟩] 0).map (·.size)).sum
        ∨ prunedRecords [⟨"a", ⟨2⟩, 1, 2⟩] 0 = entriesByTimestamp [⟨"a", ⟨2⟩, 1, 2⟩])
    ∧ (∀ e ∈ [⟨"a", ⟨2⟩, 1, 2⟩],
        (∀ d ∈ prunedRecords [⟨"a", ⟨2⟩, 1, 2⟩] 0, d.timestamp < e.timestamp) →
        e ∈ TileCacheDB.pruneOldTiles [⟨"a", ⟨2⟩, 1, 2⟩] 0)
    ∧ (∀ A B C : TileData,
        A.timestamp ≤ B.timestamp → B.timestamp ≤ C.timestamp →
        A.url ≠ B.url → A.url ≠ C.url → B.url ≠ C.url →
        0 < A.size → 0 < B.size →
        TileCacheDB.pruneOldTiles [A, B, C] C.size = [C]) :=
  pruneOldTiles_evicts_oldest_first [⟨"a", ⟨2⟩, 1, 2⟩] 0 (by decide) (by decide)

/-! ## C7: cache hits fetch nothing and change nothing -/

/-- C7: if the store already holds a payload for `url`, `cacheTile`
performs no fetch and returns the store completely unchanged (no put, no
timestamp refresh, no eviction); consequently, after a first call that
cached a payload (no intervening failure), the payload is stored
byte-identically, and a second call performs no fetch and changes
nothing, observing the same payload. -/
theorem cacheTile_idempotent_on_hit (net net2 : String → Option Blob)
    (now now2 : Nat) (s : Store) (url : String) :
    (∀ b, TileCacheDB.get s url = some b → cacheTile net now s url = (s, false))
    ∧ (∀ blob, TileCacheDB.get s url = none → net url = some blob →
        TileCacheDB.get (cacheTile net now s url).1 url = some blob
        ∧ cacheTile net2 now2 (cacheTile net now s url).1 url
            = ((cacheTile net now s url).1, false)) := by
  constructor
  · intro b hb
    exact cacheTile_hit net now hb
  · intro blob hmiss hnet
    have h1 : TileCacheDB.get (cacheTile net now s url).1 url = some blob := by
      rw [cacheTile_miss now hmiss hnet]
      exact get_put _ url blob now
    exact ⟨h1, cacheTile_hit net2 now2 h1⟩

/-! ## C8: failures of the storage layer at the public boundary

Each IndexedDB request the module issues is one transaction: it either
succeeds with its effect or fails with no effect.  `DBEnv` says which
request kinds fail; the `...E` functions are the fallible operations and
the `...Safe` functions are the exported ones with their outermost
`try/catch` (the catch logs and falls back). -/

structure DBEnv where
  getFails : Bool
  getAllFails : Bool
  cursorFails : Bool
  putFails : Bool
  clearFails : Bool
deriving DecidableEq, Repr

def TileCacheDB.getE (env : DBEnv) (s : Store) (url : String) :
    Except Unit (Option Blob) :=
  if env.getFails then .error () else .ok (TileCacheDB.get s url)

def TileCacheDB.getCacheSizeE (env : DBEnv) (s : Store) : Except Unit Nat :=
  if env.getAllFails then .error () else .ok (TileCacheDB.getCacheSize s)

def TileCacheDB.putE (env : DBEnv) (s : Store) (url : String) (blob : Blob)
    (now : Nat) : Except Unit Store :=
  if env.putFails then .error () else .ok (TileCacheDB.put s url blob now)

def TileCacheDB.clearE (env : DBEnv) : Except Unit Store :=
  if env.clearFails then .error () else .ok TileCacheDB.clear

/-- `pruneOldTiles` first awaits `getCacheSize` (fails with the getAll
request), may return before opening the cursor, and otherwise walks the
cursor inside one readwrite transaction: a cursor failure aborts that
transaction, rolling its deletions back. -/
def TileCacheDB.pruneOldTilesE (env : DBEnv) (s : Store) (target : Nat) :
    Except Unit Store :=
  if env.getAllFails then .error ()
  else if TileCacheDB.getCacheSize s ≤ target then .ok s
  else if env.cursorFails then .error ()
  else .ok (pruneLoop (entriesByTimestamp s) 0
    (TileCacheDB.getCacheSize s - target) s)

theorem pruneOldTilesE_ok (env : DBEnv) (s : Store) (target : Nat)
    (h1 : env.getAllFails = false) (h2 : env.cursorFails = false) :
    TileCacheDB.pruneOldTilesE env s target
      = .ok (TileCacheDB.pruneOldTiles s target) := by
  unfold TileCacheDB.pruneOldTilesE TileCacheDB.pruneOldTiles
  rw [h1]
  by_cases hle : TileCacheDB.getCacheSize s ≤ target
  · simp [hle]
  · simp [hle, h2]

/-- The body of `cacheTile`'s `try` block; an `error` value carries the
store as left at the failure point and whether `fetch` had been called. -/
def cacheTileE (env : DBEnv) (net : String → Option Blob) (now : Nat)
    (s : Store) (url : String) : Except (Store × Bool) (Store × Bool) :=
  match TileCacheDB.getE env s url with
  | .error _ => .error (s, false)
  | .ok (some _) => .ok (s, false)
  | .ok none =>
    match net url with
    | none => .ok (s, true)
    | some blob =>
      match TileCacheDB.getCacheSizeE env s with
      | .error _ => .error (s, true)
      | .ok currentSize =>
        if MAX_CACHE_SIZE < currentSize + blob.size then
          match TileCacheDB.pruneOldTilesE env s pruneTarget with
          | .error _ => .error (s, true)
          | .ok s1 =>
            match TileCacheDB.putE env s1 url blob now with
            | .error _ => .error (s1, true)
            | .ok s2 => .ok (s2, true)
        else
          match TileCacheDB.putE env s url blob now with
          | .error _ => .error (s, true)
          | .ok s2 => .ok (s2, true)

/-- Exported `cacheTile`: the catch resolves normally with the state as
left at the failure point (`console.warn` is outside the model). -/
def cacheTileSafe (env : DBEnv) (net : String → Option Blob) (now : Nat)
    (s : Store) (url : String) : Store × Bool :=
  match cacheTileE env net now s url with
  | .ok r => r
  | .error r => r

/-- Exported `getCachedTile`: `none` on a miss and on any storage error
(the object-URL creation for a hit is outside the model; the observed
payload is returned). -/
def getCachedTileSafe (env : DBEnv) (s : Store) (url : String) : Option Blob :=
  match TileCacheDB.getE env s url with
  | .error _ => none
  | .ok r => r

/-- Exported `getCacheSize`: `0` on any storage error. -/
def getCacheSizeSafe (env : DBEnv) (s : Store) : Nat :=
  match TileCacheDB.getCacheSizeE env s with
  | .error _ => 0
  | .ok n => n

/-- Exported `clearCache`: the store is unchanged on a storage error. -/
def clearCacheSafe (env : DBEnv) (s : Store) : Store :=
  match TileCacheDB.clearE env with
  | .error _ => s
  | .ok s2 => s2

/-- C8 (amended): no public operation propagates a storage or fetch
error: `getCachedTile` resolves with `none`, `getCacheSize` with `0`,
`clearCache` leaves the store unchanged on failure (and empties it on
success), and `cacheTile` resolves normally — but effects already
committed when a later step fails persist: the store `cacheTile` leaves
behind is always one of the original store, the pruned store, or a put
into one of those, and in particular a put failure after quota pruning
leaves the pruned store, not the original one. -/
theorem public_cache_ops_never_throw (env : DBEnv) (net : String → Option Blob)
    (now : Nat) (s : Store) (url : String) :
    (env.getFails = true → getCachedTileSafe env s url = none)
    ∧ (env.getAllFails = true → getCacheSizeSafe env s = 0)
    ∧ (env.clearFails = true → clearCacheSafe env s = s)
    ∧ (env.clearFails = false → clearCacheSafe env s = [])
    ∧ (env.getFails = true → cacheTileSafe env net now s url = (s, false))
    ∧ ((cacheTileSafe env net now s url).1 = s
        ∨ (cacheTileSafe env net now s url).1
            = TileCacheDB.pruneOldTiles s pruneTarget
        ∨ ∃ b, net url = some b
            ∧ ((cacheTileSafe env net now s url).1 = TileCacheDB.put s url b now
              ∨ (cacheTileSafe env net now s url).1
                  = TileCacheDB.put (TileCacheDB.pruneOldTiles s pruneTarget)
                      url b now))
    ∧ (∀ b, TileCacheDB.get s url = none → net url = some b →
        env.getFails = false → env.getAllFails = false →
        env.cursorFails = false → env.putFails = true →
        MAX_CACHE_SIZE < TileCacheDB.getCacheSize s + b.size →
        cacheTileSafe env net now s url
          = (TileCacheDB.pruneOldTiles s pruneTarget, true)) := by
  refine ⟨?_, ?_, ?_, ?_, ?_, ?_, ?_⟩
  · intro h
    simp [getCachedTileSafe, TileCacheDB.getE, h]
  · intro h
    simp [getCacheSizeSafe, TileCacheDB.getCacheSizeE, h]
  · intro h
    simp [clearCacheSafe, TileCacheDB.clearE, h]
  · intro h
    simp [clearCacheSafe, TileCacheDB.clearE, TileCacheDB.clear, h]
  · intro h
    simp [cacheTileSafe, cacheTileE, TileCacheDB.getE, h]
  · by_cases hg : env.getFails
    · left
      simp [cacheTileSafe, cacheTileE, TileCacheDB.getE, hg]
    · rcases hget : TileCacheDB.get s url with _ | b
      · rcases hnet : net url with _ | blob
        · left
          simp [cacheTileSafe, cacheTileE, TileCacheDB.getE, hg, hget, hnet]
        · by_cases hsz : env.getAllFails
          · left
            simp [cacheTileSafe, cacheTileE, TileCacheDB.getE,
              TileCacheDB.getCacheSizeE, hg, hget, hnet, hsz]
          · by_cases hq : MAX_CACHE_SIZE < TileCacheDB.getCacheSize s + blob.size
            · by_cases hle : TileCacheDB.getCacheSize s ≤ pruneTarget
              · -- the prune request returns at once, nothing deleted
                by_cases hp : env.putFails
                · left
                  simp [cacheTileSafe, cacheTileE, TileCacheDB.getE,
                    TileCacheDB.getCacheSizeE, TileCacheDB.pruneOldTilesE,
                    TileCacheDB.putE, hg, hget, hnet, hsz, hq, hle, hp]
                · right; right
                  refine ⟨blob, hnet ▸ rfl, Or.inl ?_⟩
                  simp [cacheTileSafe, cacheTileE, TileCacheDB.getE,
                    TileCacheDB.getCacheSizeE, TileCacheDB.pruneOldTilesE,
                    TileCacheDB.putE, hg, hget, hnet, hsz, hq, hle, hp]
              · by_cases hc : env.cursorFails
                · left
                  simp [cacheTileSafe, cacheTileE, TileCacheDB.getE,
                    TileCacheDB.getCacheSizeE, TileCacheDB.pruneOldTilesE,
                    hg, hget, hnet, hsz, hq, hle, hc]
                · by_cases hp : env.putFails
                  · right; left
                    simp [cacheTileSafe, cacheTileE, TileCacheDB.getE,
                      TileCacheDB.getCacheSizeE, TileCacheDB.putE, hg, hget,
                      hnet, hsz, hq, hp,
                      pruneOldTilesE_ok env s pruneTarget
                        (by simpa using hsz) (by simpa using hc)]
                  · right; right
                    refine ⟨blob, hnet ▸ rfl, Or.inr ?_⟩
                    simp [cacheTileSafe, cacheTileE, TileCacheDB.getE,
                      TileCacheDB.getCacheSizeE, TileCacheDB.putE, hg, hget,
                      hnet, hsz, hq, hp,
                      pruneOldTilesE_ok env s pruneTarget
                        (by simpa using hsz) (by simpa using hc)]
            · by_cases hp : env.putFails
              · left
                simp [cacheTileSafe, cacheTileE, TileCacheDB.getE,
                  TileCacheDB.getCacheSizeE, TileCacheDB.putE, hg, hget,
                  hnet, hsz, hq, hp]
              · right; right
                refine ⟨blob, hnet ▸ rfl, Or.inl ?_⟩
                simp [cacheTileSafe, cacheTileE, TileCacheDB.getE,
                  TileCacheDB.getCacheSizeE, TileCacheDB.putE, hg, hget,
                  hnet, hsz, hq, hp]
      · left
        simp [cacheTileSafe, cacheTileE, TileCacheDB.getE, hg, hget]
  · intro b hget hnet h1 h2 h3 h4 hq
    simp [cacheTileSafe, cacheTileE, TileCacheDB.getE, TileCacheDB.getCacheSizeE,
      TileCacheDB.putE, h1, h2, h3, h4, hget, hnet, hq,
      pruneOldTilesE_ok env s pruneTarget h2 h3]

/-- C8 counterexample: with only the put request failing, `cacheTile` on a
store holding one 100 MiB record fetches a 1-byte tile, prunes the store
empty, and then the put fails — the call resolves normally but the store
has changed (the old record is gone), so the failure was not "no effect". -/
theorem cacheTileSafe_put_failure_counterexample :
    cacheTileSafe ⟨false, false, false, true, false⟩ (fun _ => some ⟨1⟩) 2
        [⟨"a", ⟨104857600⟩, 1, 104857600⟩] "b"
      = ([], true)
    ∧ ([⟨"a", ⟨104857600⟩, 1, 104857600⟩] : Store) ≠ [] :=
  ⟨by decide, by decide⟩

/-! ## TileAddressResolver: getTileUrls

The zoom level is a natural number (the slippy-map grid at zoom `z` has
`2^z` tiles per side).  Longitude-to-x is the source's
`Math.floor(((lng + 180) / 360) * n)`, computed exactly over `ℚ` as an
integer floor division so that the kernel can evaluate it
(`lngToTileX_eq_floor` proves it equal to the textbook formula).
Latitude-to-y applies `Math.log/tan/cos`, which have no exact rational
form, so the per-latitude conversion `latY lat n` (the source's
`Math.floor(((1 - Math.log(Math.tan(latRad) + 1 / Math.cos(latRad)) / Math.PI) / 2) * n)`)
is a parameter of the embedding; every theorem below holds for all of
them, in particular for the source's. -/

structure Bounds where
  north : ℚ
  south : ℚ
  east : ℚ
  west : ℚ
deriving DecidableEq, Repr

/-- `Math.floor(((lng + 180) / 360) * n)`, exactly. -/
def lngToTileX (lng : ℚ) (n : ℕ) : ℤ :=
  ((lng.num + 180 * (lng.den : ℤ)) * (n : ℤ)) / ((360 * lng.den : ℕ) : ℤ)

theorem floor_lng_formula (a : ℤ) (b : ℕ) (hb : b ≠ 0) (n : ℕ) :
    ((a + 180 * (b : ℤ)) * (n : ℤ)) / ((360 * b : ℕ) : ℤ)
      = ⌊((a : ℚ) / (b : ℚ) + 180) / 360 * (n : ℚ)⌋ := by
  have hb2 : ((b : ℚ)) ≠ 0 := Nat.cast_ne_zero.mpr hb
  have key : ((a : ℚ) / (b : ℚ) + 180) / 360 * (n : ℚ)
      = (((a + 180 * (b : ℤ)) * (n : ℤ) : ℤ) : ℚ) / ((360 * b : ℕ) : ℚ) := by
    push_cast
    rw [div_mul_eq_mul_div, div_eq_div_iff (by norm_num) (by positivity)]
    field_simp
    ring
  rw [key, Rat.floor_intCast_div_natCast]

theorem lngToTileX_eq_floor (lng : ℚ) (n : ℕ) :
    lngToTileX lng n = ⌊(lng + 180) / 360 * (n : ℚ)⌋ := by
  have h := floor_lng_formula lng.num lng.den lng.den_nz n
  rw [Rat.num_div_den] at h
  exact h

/-- `for (let z = minZoom; z <= maxZoom; z++)`. -/
def zoomRange (minZoom maxZoom : ℕ) : List ℕ :=
  (List.range (maxZoom + 1 - minZoom)).map (fun i => minZoom + i)

/-- `for (let v = lo; v <= hi; v++)` over integers. -/
def tileRange (lo hi : ℤ) : List ℤ :=
  (List.range (hi + 1 - lo).toNat).map (fun i : ℕ => lo + (i : ℤ))

/-- JS `String.replace` with a string pattern: replace the first
occurrence only (the string unchanged when the pattern does not occur). -/
def replaceFirstChars (pat rep : List Char) : List Char → List Char
  | [] => if pat = [] then rep else []
  | c :: rest =>
    if pat.isPrefixOf (c :: rest) then rep ++ (c :: rest).drop pat.length
    else c :: replaceFirstChars pat rep rest

def replaceFirst (s pat rep : String) : String :=
  ⟨replaceFirstChars pat.data rep.data s.data⟩

/-- `url.replace('{z}', z).replace('{x}', x).replace('{y}', y)`. -/
def substTemplate (tileServerUrl : String) (z : ℕ) (x y : ℤ) : String :=
  replaceFirst (replaceFirst (replaceFirst tileServerUrl "{z}" (toString z))
    "{x}" (toString x)) "{y}" (toString y)

/-- `getTileUrls(bounds, minZoom, maxZoom, tileServerUrl)`. -/
def getTileUrls (latY : ℚ → ℕ → ℤ) (bounds : Bounds) (minZoom maxZoom : ℕ)
    (tileServerUrl : String) : List String :=
  (zoomRange minZoom maxZoom).flatMap (fun z =>
    let n : ℕ := 2 ^ z
    let xMin : ℤ := max 0 (lngToTileX bounds.west n)
    let xMax : ℤ := min ((n : ℤ) - 1) (lngToTileX bounds.east n)
    let yMin : ℤ := max 0 (latY bounds.north n)
    let yMax : ℤ := min ((n : ℤ) - 1) (latY bounds.south n)
    (tileRange xMin xMax).flatMap (fun x =>
      (tileRange yMin yMax).map (fun y => substTemplate tileServerUrl z x y)))

/-- The `(z, x, y)` triples `getTileUrls` enumerates, in generation
order: zoom ascending, then x ascending, then y ascending, with
`xMin`/`yMin` floored at `0` and `xMax`/`yMax` capped at `2^z - 1`. -/
def tileTriples (latY : ℚ → ℕ → ℤ) (bounds : Bounds) (minZoom maxZoom : ℕ) :
    List (ℕ × ℤ × ℤ) :=
  (zoomRange minZoom maxZoom).flatMap (fun z =>
    let n : ℕ := 2 ^ z
    (tileRange (max 0 (lngToTileX bounds.west n))
        (min ((n : ℤ) - 1) (lngToTileX bounds.east n))).flatMap (fun x =>
      (tileRange (max 0 (latY bounds.north n))
          (min ((n : ℤ) - 1) (latY bounds.south n))).map (fun y => (z, x, y))))

theorem getTileUrls_eq_map (latY : ℚ → ℕ → ℤ) (bounds : Bounds)
    (minZoom maxZoom : ℕ) (tileServerUrl : String) :
    getTileUrls latY bounds minZoom maxZoom tileServerUrl
      = (tileTriples latY bounds minZoom maxZoom).map
          (fun p => substTemplate tileServerUrl p.1 p.2.1 p.2.2) := by
  unfold getTileUrls tileTriples
  simp only [List.map_flatMap, List.map_map]
  rfl

theorem mem_zoomRange {a b z : ℕ} : z ∈ zoomRange a b ↔ a ≤ z ∧ z ≤ b := by
  unfold zoomRange
  simp only [List.mem_map, List.mem_range]
  constructor
  · rintro ⟨i, hi, rfl⟩
    omega
  · rintro ⟨h1, h2⟩
    exact ⟨z - a, by omega, by omega⟩

theorem mem_tileRange {lo hi x : ℤ} : x ∈ tileRange lo hi ↔ lo ≤ x ∧ x ≤ hi := by
  unfold tileRange
  simp only [List.mem_map, List.mem_range]
  constructor
  · rintro ⟨i, hi2, rfl⟩
    omega
  · rintro ⟨h1, h2⟩
    exact ⟨(x - lo).toNat, by omega, by omega⟩

theorem zoomRange_pairwise (a b : ℕ) : (zoomRange a b).Pairwise (· < ·) := by
  unfold zoomRange
  rw [List.pairwise_map]
  exact (List.pairwise_lt_range _).imp (by omega)

theorem tileRange_pairwise (lo hi : ℤ) : (tileRange lo hi).Pairwise (· < ·) := by
  unfold tileRange
  rw [List.pairwise_map]
  exact (List.pairwise_lt_range _).imp (by omega)

theorem tileRange_length (lo hi : ℤ) : (tileRange lo hi).length = (hi + 1 - lo).toNat := by
  unfold tileRange
  rw [List.length_map, List.length_range]

theorem mem_tileTriples (latY : ℚ → ℕ → ℤ) (bounds : Bounds)
    (minZoom maxZoom : ℕ) (z : ℕ) (x y : ℤ) :
    (z, x, y) ∈ tileTriples latY bounds minZoom maxZoom
      ↔ minZoom ≤ z ∧ z ≤ maxZoom
        ∧ max 0 (lngToTileX bounds.west (2 ^ z)) ≤ x
        ∧ x ≤ min (((2 ^ z : ℕ) : ℤ) - 1) (lngToTileX bounds.east (2 ^ z))
        ∧ max 0 (latY bounds.north (2 ^ z)) ≤ y
        ∧ y ≤ min (((2 ^ z : ℕ) : ℤ) - 1) (latY bounds.south (2 ^ z)) := by
  unfold tileTriples
  simp only [List.mem_flatMap, List.mem_map, mem_zoomRange, mem_tileRange,
    Prod.mk.injEq]
  constructor
  · rintro ⟨z', ⟨hz1, hz2⟩, x', ⟨hx1, hx2⟩, y', ⟨hy1, hy2⟩, hz, hx, hy⟩
    subst hz; subst hx; subst hy
    exact ⟨hz1, hz2, hx1, hx2, hy1, hy2⟩
  · rintro ⟨hz1, hz2, hx1, hx2, hy1, hy2⟩
    exact ⟨z, ⟨hz1, hz2⟩, x, ⟨hx1, hx2⟩, y, ⟨hy1, hy2⟩, rfl, rfl, rfl⟩

/-! ## C4: how the per-zoom bounds are computed and clamped -/

/-- What C4 literally describes: each of the four per-zoom bounds clamped
to the full interval `[0, 2^z - 1]` at both ends.  The source instead
only floors `xMin`/`yMin` at `0` and only caps `xMax`/`yMax` at
`2^z - 1`; `getTileUrls_clamp_counterexample` separates the two. -/
def getTileUrlsSpecClamped (latY : ℚ → ℕ → ℤ) (bounds : Bounds)
    (minZoom maxZoom : ℕ) (tileServerUrl : String) : List String :=
  (zoomRange minZoom maxZoom).flatMap (fun z =>
    let n : ℕ := 2 ^ z
    let xMin : ℤ := max 0 (min ((n : ℤ) - 1) (lngToTileX bounds.west n))
    let xMax : ℤ := max 0 (min ((n : ℤ) - 1) (lngToTileX bounds.east n))
    let yMin : ℤ := max 0 (min ((n : ℤ) - 1) (latY bounds.north n))
    let yMax : ℤ := max 0 (min ((n : ℤ) - 1) (latY bounds.south n))
    (tileRange xMin xMax).flatMap (fun x =>
      (tileRange yMin yMax).map (fun y => substTemplate tileServerUrl z x y)))

/-- The latitude conversion at the equator: the source's
`Math.floor(((1 - Math.log(Math.tan(latRad) + 1 / Math.cos(latRad)) / Math.PI) / 2) * n)`
evaluates exactly to `n / 2` at `lat = 0` (`tan 0 = 0`, `cos 0 = 1`,
`log 1 = 0`, and `0.5 * n` is exact in doubles), so this function agrees
with the source wherever only latitude `0` is consulted. -/
def latYEquator : ℚ → ℕ → ℤ := fun _ n => ((n : ℤ)) / 2

/-- C4 counterexample: with west = east = 200° (out of range to the
east) at zoom 1, the source computes `xMin = max(0, 2) = 2 > xMax =
min(1, 2) = 1` and emits nothing, while the both-ends clamping that C4
describes would emit the tile `(1, 1, 1)`. -/
theorem getTileUrls_clamp_counterexample :
    getTileUrls latYEquator ⟨0, 0, 200, 200⟩ 1 1 "t/{z}/{x}/{y}" = []
    ∧ getTileUrlsSpecClamped latYEquator ⟨0, 0, 200, 200⟩ 1 1 "t/{z}/{x}/{y}"
        = ["t/1/1/1"] :=
  ⟨by decide, by decide⟩

/-- C4 (amended): for each zoom `z` in `[minZoom, maxZoom]`,
`getTileUrls` computes the raw x bounds from the west/east longitudes by
the slippy-map formula `floor((lng + 180) / 360 * 2^z)` and the raw y
bounds from the north/south latitudes by the latitude conversion, clamps
them ONE-SIDEDLY — `xMin`, `yMin` floored at `0`; `xMax`, `yMax` capped
at `2^z - 1` — and emits one URL per enumerated `(z, x, y)` by
substituting the placeholders into the template. -/
theorem getTileUrls_bounds_computation (latY : ℚ → ℕ → ℤ) (bounds : Bounds)
    (minZoom maxZoom : ℕ) (tileServerUrl : String) :
    getTileUrls latY bounds minZoom maxZoom tileServerUrl
      = (tileTriples latY bounds minZoom maxZoom).map
          (fun p => substTemplate tileServerUrl p.1 p.2.1 p.2.2)
    ∧ (∀ z : ℕ, ∀ x y : ℤ,
        (z, x, y) ∈ tileTriples latY bounds minZoom maxZoom
          ↔ minZoom ≤ z ∧ z ≤ maxZoom
            ∧ max 0 ⌊(bounds.west + 180) / 360 * ((2 ^ z : ℕ) : ℚ)⌋ ≤ x
            ∧ x ≤ min (((2 ^ z : ℕ) : ℤ) - 1)
                ⌊(bounds.east + 180) / 360 * ((2 ^ z : ℕ) : ℚ)⌋
            ∧ max 0 (latY bounds.north (2 ^ z)) ≤ y
            ∧ y ≤ min (((2 ^ z : ℕ) : ℤ) - 1) (latY bounds.south (2 ^ z))) := by
  refine ⟨getTileUrls_eq_map latY bounds minZoom maxZoom tileServerUrl, ?_⟩
  intro z x y
  rw [mem_tileTriples, lngToTileX_eq_floor, lngToTileX_eq_floor]

/-! ## C5: enumeration order, duplicates, and size -/

/-- Generation order of the triples: zoom ascending, then x ascending,
then y ascending. -/
def tripleLt (p q : ℕ × ℤ × ℤ) : Prop :=
  p.1 < q.1 ∨ (p.1 = q.1 ∧ (p.2.1 < q.2.1 ∨ (p.2.1 = q.2.1 ∧ p.2.2 < q.2.2)))

theorem tripleLt_ne {p q : ℕ × ℤ × ℤ} (h : tripleLt p q) : p ≠ q := by
  rintro rfl
  unfold tripleLt at h
  rcases h with h | ⟨_, h | ⟨_, h⟩⟩ <;> omega

theorem tileTriples_pairwise (latY : ℚ → ℕ → ℤ) (bounds : Bounds)
    (minZoom maxZoom : ℕ) :
    (tileTriples latY bounds minZoom maxZoom).Pairwise tripleLt := by
  unfold tileTriples
  rw [List.pairwise_flatMap]
  constructor
  · intro z hz
    rw [List.pairwise_flatMap]
    constructor
    · intro x hx
      rw [List.pairwise_map]
      exact (tileRange_pairwise _ _).imp
        (fun h => Or.inr ⟨rfl, Or.inr ⟨rfl, h⟩⟩)
    · refine (tileRange_pairwise _ _).imp ?_
      intro x1 x2 h p hp q hq
      rcases List.mem_map.mp hp with ⟨y1, _, rfl⟩
      rcases List.mem_map.mp hq with ⟨y2, _, rfl⟩
      exact Or.inr ⟨rfl, Or.inl h⟩
  · refine (zoomRange_pairwise _ _).imp ?_
    intro z1 z2 h p hp q hq
    rcases List.mem_flatMap.mp hp with ⟨x1, _, hp2⟩
    rcases List.mem_map.mp hp2 with ⟨y1, _, rfl⟩
    rcases List.mem_flatMap.mp hq with ⟨x2, _, hq2⟩
    rcases List.mem_map.mp hq2 with ⟨y2, _, rfl⟩
    exact Or.inl h

/-- `Σ_z (xMax − xMin + 1) × (yMax − yMin + 1)` with each factor clamped
at zero (an inverted range contributes no tiles). -/
def countTilesClamped (latY : ℚ → ℕ → ℤ) (bounds : Bounds)
    (minZoom maxZoom : ℕ) : ℕ :=
  ((zoomRange minZoom maxZoom).map (fun z =>
    let n : ℕ := 2 ^ z
    (min ((n : ℤ) - 1) (lngToTileX bounds.east n) + 1
        - max 0 (lngToTileX bounds.west n)).toNat
      * (min ((n : ℤ) - 1) (latY bounds.south n) + 1
        - max 0 (latY bounds.north n)).toNat)).sum

/-- `Σ_z (xMax − xMin + 1) × (yMax − yMin + 1)` literally, over ℤ — the
claim's formula; it disagrees with the emitted count when both ranges
are inverted by at least two. -/
def countTilesInt (latY : ℚ → ℕ → ℤ) (bounds : Bounds)
    (minZoom maxZoom : ℕ) : ℤ :=
  ((zoomRange minZoom maxZoom).map (fun z =>
    let n : ℕ := 2 ^ z
    (min ((n : ℤ) - 1) (lngToTileX bounds.east n)
        - max 0 (lngToTileX bounds.west n) + 1)
      * (min ((n : ℤ) - 1) (latY bounds.south n)
        - max 0 (latY bounds.north n) + 1))).sum

theorem flatMap_map_length {α β γ : Type} (l1 : List α) (l2 : List β)
    (f : α → β → γ) :
    (l1.flatMap (fun x => l2.map (f x))).length = l1.length * l2.length := by
  induction l1 with
  | nil => simp
  | cons a l ih =>
    rw [List.flatMap_cons, List.length_append, List.length_map, ih,
      List.length_cons]
    ring

theorem getTileUrls_length (latY : ℚ → ℕ → ℤ) (bounds : Bounds)
    (minZoom maxZoom : ℕ) (tileServerUrl : String) :
    (getTileUrls latY bounds minZoom maxZoom tileServerUrl).length
      = countTilesClamped latY bounds minZoom maxZoom := by
  unfold getTileUrls countTilesClamped
  rw [List.length_flatMap]
  congr 1
  apply List.map_congr_left
  intro z _
  simp only [Function.comp_apply]
  rw [flatMap_map_length, tileRange_length, tileRange_length]

/-- A latitude conversion agreeing with the source's float formula on the
two latitudes the counterexample uses: at `0°` the formula is exactly
`n / 2`; at `85°` it is `Math.floor(0.00676... * n)`, which is `0` for
every `n ≤ 147` and in particular for the `n = 4` used below. -/
def latYEquator85 : ℚ → ℕ → ℤ := fun lat n => if lat = 0 then ((n : ℤ)) / 2 else 0

/-- C5 counterexample.  First: a template without placeholders collapses
the two distinct triples of a two-zoom single-tile window into the same
URL, so the emitted list has duplicates.  Second: with both axis ranges
inverted by two (west 0°, east −180°, north 0°, south 85° at zoom 2:
`xMin = 2 > xMax = 0`, `yMin = 2 > yMax = 0`), nothing is emitted while
the literal formula `Σ_z (xMax−xMin+1)(yMax−yMin+1)` gives
`(−1)·(−1) = 1`. -/
theorem getTileUrls_dup_count_counterexample :
    getTileUrls latYEquator ⟨0, 0, 0, 0⟩ 0 1 "t" = ["t", "t"]
    ∧ ¬ (getTileUrls latYEquator ⟨0, 0, 0, 0⟩ 0 1 "t").Nodup
    ∧ (getTileUrls latYEquator85 ⟨0, 85, -180, 0⟩ 2 2 "t/{z}/{x}/{y}").length = 0
    ∧ countTilesInt latYEquator85 ⟨0, 85, -180, 0⟩ 2 2 = 1 :=
  ⟨by decide, by decide, by decide, by decide⟩

/-- C5 (amended): the triples `getTileUrls` enumerates are strictly
ordered — zoom ascending, then x ascending, then y ascending — hence
pairwise distinct; the returned sequence is their placeholder
substitutions in that order; its size is exactly
`Σ_z (xMax−xMin+1)×(yMax−yMin+1)` with each factor clamped at zero; and
the URLs themselves are duplicate-free whenever the template does not
collapse distinct enumerated triples (templates without all three
placeholders, or with colliding substitutions, may produce duplicates). -/
theorem getTileUrls_order_count (latY : ℚ → ℕ → ℤ) (bounds : Bounds)
    (minZoom maxZoom : ℕ) (tileServerUrl : String) :
    (tileTriples latY bounds minZoom maxZoom).Pairwise tripleLt
    ∧ getTileUrls latY bounds minZoom maxZoom tileServerUrl
      = (tileTriples latY bounds minZoom maxZoom).map
          (fun p => substTemplate tileServerUrl p.1 p.2.1 p.2.2)
    ∧ (getTileUrls latY bounds minZoom maxZoom tileServerUrl).length
      = countTilesClamped latY bounds minZoom maxZoom
    ∧ ((∀ p ∈ tileTriples latY bounds minZoom maxZoom,
        ∀ q ∈ tileTriples latY bounds minZoom maxZoom,
        substTemplate tileServerUrl p.1 p.2.1 p.2.2
          = substTemplate tileServerUrl q.1 q.2.1 q.2.2 → p = q) →
      (getTileUrls latY bounds minZoom maxZoom tileServerUrl).Nodup) := by
  refine ⟨tileTriples_pairwise latY bounds minZoom maxZoom,
    getTileUrls_eq_map latY bounds minZoom maxZoom tileServerUrl,
    getTileUrls_length latY bounds minZoom maxZoom tileServerUrl, ?_⟩
  intro hinj
  rw [getTileUrls_eq_map]
  have hnd : (tileTriples latY bounds minZoom maxZoom).Nodup :=
    (tileTriples_pairwise latY bounds minZoom maxZoom).imp tripleLt_ne
  exact hnd.map_on hinj

/-! ## C9: emitted coordinates always lie on the tile grid -/

/-- C9: whatever the bounds (out-of-range longitudes and latitudes
included), every URL `getTileUrls` emits is the substitution of an
enumerated triple `(z, x, y)` with `0 ≤ x ≤ 2^z − 1` and
`0 ≤ y ≤ 2^z − 1`: the minima are floored at 0 and the maxima capped at
`2^z − 1`, so out-of-range bounds can only empty the enumeration, never
produce an out-of-grid coordinate. -/
theorem getTileUrls_in_grid (latY : ℚ → ℕ → ℤ) (bounds : Bounds)
    (minZoom maxZoom : ℕ) (tileServerUrl : String) :
    getTileUrls latY bounds minZoom maxZoom tileServerUrl
      = (tileTriples latY bounds minZoom maxZoom).map
          (fun p => substTemplate tileServerUrl p.1 p.2.1 p.2.2)
    ∧ ∀ p ∈ tileTriples latY bounds minZoom maxZoom,
        0 ≤ p.2.1 ∧ p.2.1 ≤ ((2 ^ p.1 : ℕ) : ℤ) - 1
        ∧ 0 ≤ p.2.2 ∧ p.2.2 ≤ ((2 ^ p.1 : ℕ) : ℤ) - 1 := by
  refine ⟨getTileUrls_eq_map latY bounds minZoom maxZoom tileServerUrl,
    fun p hp => ?_⟩
  obtain ⟨z, x, y⟩ := p
  rw [mem_tileTriples] at hp
  obtain ⟨_, _, hx1, hx2, hy1, hy2⟩ := hp
  exact ⟨le_trans (le_max_left _ _) hx1, le_trans hx2 (min_le_left _ _),
    le_trans (le_max_left _ _) hy1, le_trans hy2 (min_le_left _ _)⟩

/-! ## AreaDownloadOrchestrator: downloadAreaTiles -/

/-- The URL list `downloadAreaTiles` iterates:
`minZoom = max(0, floor(currentZoom) - 1)`,
`maxZoom = min(15, floor(currentZoom) + 2)`, then `getTileUrls`.  When
`maxZoom < minZoom` (`currentZoom < -2` or `> 16`) the source's zoom loop
runs zero iterations; the guard mirrors that, since the `toNat`
conversions would otherwise collapse such an empty integer range onto
zoom 0. -/
def areaUrls (latY : ℚ → ℕ → ℤ) (bounds : Bounds) (currentZoom : ℚ)
    (tileServerUrl : String) : List String :=
  let minZoom : ℤ := max 0 (currentZoom.floor - 1)
  let maxZoom : ℤ := min 15 (currentZoom.floor + 2)
  if maxZoom < minZoom then []
  else getTileUrls latY bounds minZoom.toNat maxZoom.toNat tileServerUrl

/-- The sequential loop of `downloadAreaTiles`: await `cacheTile(url)`,
increment `completed`, report `completed / urls.length * 100`.  The
second component collects the values passed to `onProgress`, in order. -/
def downloadLoop (net : String → Option Blob) (now : Nat) (total : ℕ) :
    List String → ℕ → Store → Store × List ℚ
  | [], _, s => (s, [])
  | url :: rest, completed, s =>
    let s2 := (cacheTile net now s url).1
    let r := downloadLoop net now total rest (completed + 1) s2
    (r.1, (((completed + 1 : ℕ) : ℚ) / (total : ℚ) * 100) :: r.2)

/-- `downloadAreaTiles(bounds, currentZoom, tileServerUrl, onProgress)`:
the final store and the reported progress values. -/
def downloadAreaTiles (latY : ℚ → ℕ → ℤ) (net : String → Option Blob)
    (now : Nat) (bounds : Bounds) (currentZoom : ℚ) (tileServerUrl : String)
    (s : Store) : Store × List ℚ :=
  downloadLoop net now (areaUrls latY bounds currentZoom tileServerUrl).length
    (areaUrls latY bounds currentZoom tileServerUrl) 0 s

theorem downloadLoop_reports (net : String → Option Blob) (now : Nat)
    (total : ℕ) :
    ∀ (urls : List String) (completed : ℕ) (s : Store),
      (downloadLoop net now total urls completed s).2
        = (List.range' (completed + 1) urls.length).map
            (fun k => ((k : ℕ) : ℚ) / (total : ℚ) * 100) := by
  intro urls
  induction urls with
  | nil => intro completed s; rfl
  | cons url rest ih =>
    intro completed s
    rw [downloadLoop]
    simp only
    rw [ih (completed + 1) _, List.length_cons, List.range'_succ]
    rfl

theorem downloadLoop_store_mem (net : String → Option Blob) (now : Nat)
    (total : ℕ) :
    ∀ (urls : List String) (completed : ℕ) (s : Store) (e : TileData),
      e ∈ (downloadLoop net now total urls completed s).1 →
      e ∈ s ∨ (e.url ∈ urls ∧ net e.url = some e.blob) := by
  intro urls
  induction urls with
  | nil => intro completed s e he; exact Or.inl he
  | cons url rest ih =>
    intro completed s e he
    rw [downloadLoop] at he
    simp only at he
    rcases ih (completed + 1) ((cacheTile net now s url).1) e he with h2 | ⟨h2, h3⟩
    · rcases mem_cacheTile h2 with h3 | ⟨blob, hnet, hnew⟩
      · exact Or.inl h3
      · refine Or.inr ⟨?_, ?_⟩
        · rw [hnew]
          exact List.mem_cons_self url rest
        · rw [hnew]
          simpa using hnet
    · exact Or.inr ⟨List.mem_cons_of_mem url h2, h3⟩

/-! ## C10: a zero-tile area reports no progress -/

/-- C10: when the enumerated URL list is empty (inverted bounds, for
example), `downloadAreaTiles` resolves at once with the store untouched
and `onProgress` is never invoked — in particular no `onProgress(100)` is
reported and no `0 / 0` progress value is ever computed. -/
theorem downloadAreaTiles_empty_no_progress (latY : ℚ → ℕ → ℤ)
    (net : String → Option Blob) (now : Nat) (bounds : Bounds)
    (currentZoom : ℚ) (tileServerUrl : String) (s : Store)
    (h : areaUrls latY bounds currentZoom tileServerUrl = []) :
    downloadAreaTiles latY net now bounds currentZoom tileServerUrl s
      = (s, []) := by
  unfold downloadAreaTiles
  rw [h]
  rfl

theorem downloadAreaTiles_empty_no_progress_witness :
    downloadAreaTiles latYEquator (fun _ => some ⟨1⟩) 1 ⟨0, 0, -100, 100⟩ 5
        "t/{z}/{x}/{y}" [] = ([], []) :=
  downloadAreaTiles_empty_no_progress latYEquator (fun _ => some ⟨1⟩) 1
    ⟨0, 0, -100, 100⟩ 5 "t/{z}/{x}/{y}" [] (by decide)

/-! ## C6: progress reporting and failure tolerance of the area download -/

/-- C6 (amended): with `N ≥ 1` enumerated URLs, `downloadAreaTiles`
attempts all of them (fetch failures skip the tile but never stop the
loop), reports progress exactly once after each URL with value
`completed / N * 100` (the k-th report is `k / N * 100`), the reports
strictly increase within `[0, 100]`, the last one is `100`, and every
record of the final store was either live in the initial store or is a
successfully fetched enumerated tile — but quota pruning inside
`cacheTile` may additionally have evicted records (initially cached ones
included), so the final cache need not contain ALL of them. -/
theorem downloadAreaTiles_progress (latY : ℚ → ℕ → ℤ)
    (net : String → Option Blob) (now : Nat) (bounds : Bounds)
    (currentZoom : ℚ) (tileServerUrl : String) (s : Store)
    (h : areaUrls latY bounds currentZoom tileServerUrl ≠ []) :
    (downloadAreaTiles latY net now bounds currentZoom tileServerUrl s).2.length
      = (areaUrls latY bounds currentZoom tileServerUrl).length
    ∧ (downloadAreaTiles latY net now bounds currentZoom tileServerUrl s).2
      = (List.range' 1 (areaUrls latY bounds currentZoom tileServerUrl).length).map
          (fun k => ((k : ℕ) : ℚ)
            / (((areaUrls latY bounds currentZoom tileServerUrl).length : ℕ) : ℚ)
            * 100)
    ∧ (downloadAreaTiles latY net now bounds currentZoom tileServerUrl s).2.Pairwise
        (· < ·)
    ∧ (∀ r ∈ (downloadAreaTiles latY net now bounds currentZoom tileServerUrl s).2,
        0 ≤ r ∧ r ≤ 100)
    ∧ (downloadAreaTiles latY net now bounds currentZoom tileServerUrl s).2.getLast?
      = some 100
    ∧ (∀ e ∈ (downloadAreaTiles latY net now bounds currentZoom tileServerUrl s).1,
        e ∈ s ∨ (e.url ∈ areaUrls latY bounds currentZoom tileServerUrl
          ∧ net e.url = some e.blob)) := by
  have hN : 0 < (areaUrls latY bounds currentZoom tileServerUrl).length :=
    List.length_pos.mpr h
  have hNQ : (0 : ℚ)
      < (((areaUrls latY bounds currentZoom tileServerUrl).length : ℕ) : ℚ) := by
    exact_mod_cast hN
  have hrep : (downloadAreaTiles latY net now bounds currentZoom tileServerUrl s).2
      = (List.range' 1 (areaUrls latY bounds currentZoom tileServerUrl).length).map
          (fun k => ((k : ℕ) : ℚ)
            / (((areaUrls latY bounds currentZoom tileServerUrl).length : ℕ) : ℚ)
            * 100) := by
    unfold downloadAreaTiles
    rw [downloadLoop_reports]
  refine ⟨?_, hrep, ?_, ?_, ?_, ?_⟩
  · rw [hrep, List.length_map, List.length_range']
  · rw [hrep]
    rw [List.pairwise_map]
    refine (List.pairwise_lt_range' 1 _ 1 (by norm_num)).imp ?_
    intro k1 k2 hk
    have h1 : ((k1 : ℕ) : ℚ) < ((k2 : ℕ) : ℚ) := by exact_mod_cast hk
    have h2 : ((k1 : ℕ) : ℚ)
        / (((areaUrls latY bounds currentZoom tileServerUrl).length : ℕ) : ℚ)
        < ((k2 : ℕ) : ℚ)
        / (((areaUrls latY bounds currentZoom tileServerUrl).length : ℕ) : ℚ) := by
      gcongr
    exact mul_lt_mul_of_pos_right h2 (by norm_num)
  · rw [hrep]
    intro r hr
    rcases List.mem_map.mp hr with ⟨k, hk, rfl⟩
    rcases List.mem_range'.mp hk with ⟨i, hi, rfl⟩
    have hk1 : (1 : ℕ) ≤ 1 + 1 * i := by omega
    have hk2 : 1 + 1 * i ≤ (areaUrls latY bounds currentZoom tileServerUrl).length := by
      omega
    constructor
    · positivity
    · have hle : (((1 + 1 * i : ℕ)) : ℚ)
          ≤ (((areaUrls latY bounds currentZoom tileServerUrl).length : ℕ) : ℚ) := by
        exact_mod_cast hk2
      calc (((1 + 1 * i : ℕ)) : ℚ)
            / (((areaUrls latY bounds currentZoom tileServerUrl).length : ℕ) : ℚ)
            * 100
          ≤ 1 * 100 := by
            apply mul_le_mul_of_nonneg_right _ (by norm_num)
            exact (div_le_one hNQ).mpr hle
        _ = 100 := by norm_num
  · obtain ⟨m, hm⟩ : ∃ m,
        (areaUrls latY bounds currentZoom tileServerUrl).length = m + 1 :=
      ⟨(areaUrls latY bounds currentZoom tileServerUrl).length - 1, by omega⟩
    rw [hrep]
    conv in List.range' 1 _ => rw [hm]
    rw [List.range'_concat, List.map_append, List.map_singleton,
      List.getLast?_concat]
    have hval : (1 + 1 * m : ℕ)
        = (areaUrls latY bounds currentZoom tileServerUrl).length := by omega
    rw [hval, div_self (ne_of_gt hNQ), one_mul]
  · intro e he
    exact downloadLoop_store_mem net now _ _ 0 s e he

/-- C6 counterexample: a store already holding a 100 MiB tile `A`.
Downloading a three-tile area of 1-byte tiles triggers quota pruning on
the first insert, which evicts `A`; afterwards the cache holds exactly
the three fetched tiles and no longer contains the previously cached
`A` — so the final cache is NOT exactly "already cached plus
successfully fetched". -/
theorem downloadAreaTiles_eviction_counterexample :
    ("A" ∈ ([⟨"A", ⟨104857600⟩, 1, 104857600⟩] : Store).map (·.url))
    ∧ ((downloadAreaTiles latYEquator (fun _ => some ⟨1⟩) 2 ⟨0, 0, 0, 0⟩ 0
          "{z}/{x}/{y}" [⟨"A", ⟨104857600⟩, 1, 104857600⟩]).1.map (·.url)
        = ["0/0/0", "1/1/1", "2/2/2"]) :=
  ⟨by decide, by decide⟩

theorem downloadAreaTiles_progress_witness :
    (downloadAreaTiles latYEquator (fun _ => none) 1 ⟨0, 0, 0, 0⟩ 0 "t" []).2.length
      = (areaUrls latYEquator ⟨0, 0, 0, 0⟩ 0 "t").length
    ∧ (downloadAreaTiles latYEquator (fun _ => none) 1 ⟨0, 0, 0, 0⟩ 0 "t" []).2
      = (List.range' 1 (areaUrls latYEquator ⟨0, 0, 0, 0⟩ 0 "t").length).map
          (fun k => ((k : ℕ) : ℚ)
            / (((areaUrls latYEquator ⟨0, 0, 0, 0⟩ 0 "t").length : ℕ) : ℚ) * 100)
    ∧ (downloadAreaTiles latYEquator (fun _ => none) 1 ⟨0, 0, 0, 0⟩ 0 "t" []).2.Pairwise
        (· < ·)
    ∧ (∀ r ∈ (downloadAreaTiles latYEquator (fun _ => none) 1 ⟨0, 0, 0, 0⟩ 0 "t" []).2,
        0 ≤ r ∧ r ≤ 100)
    ∧ (downloadAreaTiles latYEquator (fun _ => none) 1 ⟨0, 0, 0, 0⟩ 0 "t" []).2.getLast?
      = some 100
    ∧ (∀ e ∈ (downloadAreaTiles latYEquator (fun _ => none) 1 ⟨0, 0, 0, 0⟩ 0 "t" []).1,
        e ∈ ([] : Store) ∨ (e.url ∈ areaUrls latYEquator ⟨0, 0, 0, 0⟩ 0 "t"
          ∧ (fun _ : String => (none : Option Blob)) e.url = some e.blob)) :=
  downloadAreaTiles_progress latYEquator (fun _ => none) 1 ⟨0, 0, 0, 0⟩ 0 "t" []
    (by decide)
